import Mathlib

/-!
Verification of the SurgeScript dispatch/execution core:
the program pool (`src/surgescript/runtime/program_pool.c`), the VM driver
(`runtime/vm.c`), the runtime environment (`runtime/renv.h`) and the Array
built-in (`runtime/sslib/array.c`), shallowly embedded in Lean 4.
-/

namespace SurgeScript

/-! ## Strings and function signatures -/

/-- Injective numeric encoding of a string: little-endian base-`2^33`
digits, each digit `c.toNat + 1` (nonzero, and below the base since a
`Char`'s code point fits in 32 bits). Used to model the byte content a
hash function consumes. -/
def encodeStr (s : String) : Nat :=
  s.toList.foldr (fun c n => (c.toNat + 1) + 8589934592 * n) 0

/-- Modelled from the spec: `hashlittle2` is declared `extern` in
`program_pool.c` and its definition is not part of the sources under
review. The spec requires the derived key to be "deterministic,
collision-resistant" and "order-sensitive between the two strings", and
describes it as "two independent 32-bit hashes" threaded through both
strings (the C function updates the two accumulators `pc`, `pb` in
place). The collision-resistant ideal of such a state update is an
injective pairing of each accumulator with the consumed key. -/
def hashlittle2 (key : String) (pc pb : Nat) : Nat × Nat :=
  (Nat.pair pc (encodeStr key), Nat.pair pb (encodeStr key))

/-- `generate_signature` from `program_pool.c` (fast-signature variant):
starts the accumulators at `0, 0`, feeds the object name and then the
program name through `hashlittle2`, and packs the two results into a
single key — the C packing `pc | pb << 32` is injective on 32-bit
halves and is modelled by `Nat.pair`. -/
def generate_signature (object_name program_name : String) : Nat :=
  let s1 := hashlittle2 object_name 0 0
  let s2 := hashlittle2 program_name s1.1 s1.2
  Nat.pair s2.1 s2.2

theorem char_toNat_lt (c : Char) : c.toNat < 8589934592 := by
  have h : c.val.toNat < 4294967296 := c.val.toNat_lt
  have e : c.toNat = c.val.toNat := rfl
  omega

theorem char_toNat_inj {a b : Char} (h : a.toNat = b.toNat) : a = b := by
  apply Char.ext
  have hb : a.val.toBitVec = b.val.toBitVec := BitVec.toNat_injective h
  exact congrArg UInt32.mk hb

theorem encodeList_inj (l1 l2 : List Char)
    (h : l1.foldr (fun c n => (c.toNat + 1) + 8589934592 * n) 0
       = l2.foldr (fun c n => (c.toNat + 1) + 8589934592 * n) 0) :
    l1 = l2 := by
  induction l1 generalizing l2 with
  | nil =>
    cases l2 with
    | nil => rfl
    | cons c t => simp only [List.foldr] at h; omega
  | cons c t ih =>
    cases l2 with
    | nil => simp only [List.foldr] at h; omega
    | cons c2 t2 =>
      simp only [List.foldr] at h
      have hc : c.toNat < 8589934592 := char_toNat_lt c
      have hc2 : c2.toNat < 8589934592 := char_toNat_lt c2
      have heq : c.toNat = c2.toNat ∧
          t.foldr (fun c n => (c.toNat + 1) + 8589934592 * n) 0
        = t2.foldr (fun c n => (c.toNat + 1) + 8589934592 * n) 0 := by
        constructor <;> omega
      rw [char_toNat_inj heq.1, ih t2 heq.2]

theorem encodeStr_inj {s t : String} (h : encodeStr s = encodeStr t) : s = t :=
  String.ext (encodeList_inj _ _ h)

theorem generate_signature_inj {a b c d : String}
    (h : generate_signature a b = generate_signature c d) : a = c ∧ b = d := by
  unfold generate_signature hashlittle2 at h
  simp only [Nat.pair_eq_pair] at h
  exact ⟨encodeStr_inj h.1.1.2, encodeStr_inj h.1.2⟩

/-! ## The program pool (`program_pool.c`)

The uthash table `pool->hash` (signature to program) is embedded as an
association list of `(signature, program)` pairs ordered by insertion
(`HASH_ADD` appends); `HASH_FIND` returns the entry whose key matches,
modelled as the first match; `HASH_DEL` removes that entry.  The
metadata table `pool->meta` (object name to its `SSARRAY` of program
names) is likewise an association list, each entry carrying the
insertion-ordered name list.  Programs (`surgescript_program_t*`) are
opaque handles, a type parameter. -/

/-- `HASH_FIND_ITEM_BY_SIGNATURE`: first entry whose signature key
matches, if any. -/
def hash_find_item_by_signature {m : Type} : List (Nat × m) → Nat → Option m
  | [], _ => none
  | (k, v) :: t, s => if k = s then some v else hash_find_item_by_signature t s

/-- `HASH_DEL` applied to the pair found for a signature: remove the
first entry whose key matches (no-op when absent). -/
def hash_del_by_signature {m : Type} : List (Nat × m) → Nat → List (Nat × m)
  | [], _ => []
  | (k, v) :: t, s => if k = s then t else (k, v) :: hash_del_by_signature t s

/-- In-place overwrite `pair->program = program` of the pair found for a
signature (used by `surgescript_programpool_replace`). -/
def hash_set_by_signature {m : Type} : List (Nat × m) → Nat → m → List (Nat × m)
  | [], _, _ => []
  | (k, v) :: t, s, p => if k = s then (k, p) :: t else (k, v) :: hash_set_by_signature t s p

/-- `HASH_FIND` on the metadata table: first entry for an object name. -/
def meta_find : List (String × List String) → String → Option (List String)
  | [], _ => none
  | (k, v) :: t, o => if k = o then some v else meta_find t o

/-- Apply `f` to the program-name array of the metadata entry found for
an object name (no-op when absent). -/
def meta_update : List (String × List String) → String → (List String → List String) →
    List (String × List String)
  | [], _, _ => []
  | (k, v) :: t, o, f => if k = o then (k, f v) :: t else (k, v) :: meta_update t o f

/-- `HASH_DEL` on the metadata table: drop the entry found for an object
name (used by `remove_object_metadata`). -/
def meta_del : List (String × List String) → String → List (String × List String)
  | [], _ => []
  | (k, v) :: t, o => if k = o then t else (k, v) :: meta_del t o

/-- The pool (`struct surgescript_programpool_t`): the signature
registry `hash` and the per-object metadata `meta`. -/
structure ProgramPool (m : Type) where
  hash : List (Nat × m)
  meta : List (String × List String)

/-- `surgescript_programpool_create`: both tables start empty. -/
def surgescript_programpool_create (m : Type) : ProgramPool m :=
  { hash := [], meta := [] }

/-- `insert_metadata`: create the object's entry if missing (appended by
`HASH_ADD_KEYPTR`), then `ssarray_push` the program name at the end. -/
def insert_metadata {m : Type} (pool : ProgramPool m) (object_name program_name : String) :
    ProgramPool m :=
  match meta_find pool.meta object_name with
  | none => { pool with meta := pool.meta ++ [(object_name, [program_name])] }
  | some _ => { pool with meta := meta_update pool.meta object_name (· ++ [program_name]) }

/-- `remove_metadata`: erase the first occurrence of the program name
from the object's name array, if both exist. -/
def remove_metadata {m : Type} (pool : ProgramPool m) (object_name program_name : String) :
    ProgramPool m :=
  { pool with meta := meta_update pool.meta object_name (·.erase program_name) }

/-- `remove_object_metadata`: drop the whole metadata entry of an
object, if present. -/
def remove_object_metadata {m : Type} (pool : ProgramPool m) (object_name : String) :
    ProgramPool m :=
  { pool with meta := meta_del pool.meta object_name }

/-- `traverse_metadata`: the sequence of program names the callback is
invoked on, in array order (empty when the object has no entry). -/
def traverse_metadata {m : Type} (pool : ProgramPool m) (object_name : String) : List String :=
  match meta_find pool.meta object_name with
  | some names => names
  | none => []

/-- `surgescript_programpool_shallowcheck`: exact-signature lookup, no
fallback. -/
def surgescript_programpool_shallowcheck {m : Type} (pool : ProgramPool m)
    (object_name program_name : String) : Bool :=
  (hash_find_item_by_signature pool.hash (generate_signature object_name program_name)).isSome

/-- `surgescript_programpool_put`: register under the pair's signature
(appending the hash entry and the metadata name) when the exact pair is
absent; otherwise `ssfatal` — a process-terminating "duplicate function"
error, modelled as `none`. -/
def surgescript_programpool_put {m : Type} (pool : ProgramPool m)
    (object_name program_name : String) (program : m) : Option (ProgramPool m) :=
  if ¬ surgescript_programpool_shallowcheck pool object_name program_name then
    some (insert_metadata
      { pool with
        hash := pool.hash ++ [(generate_signature object_name program_name, program)] }
      object_name program_name)
  else
    none

/-- `surgescript_programpool_get`: exact-signature lookup, falling back
to the `"Object"` base class on a miss, `none` when both miss. -/
def surgescript_programpool_get {m : Type} (pool : ProgramPool m)
    (object_name program_name : String) : Option m :=
  match hash_find_item_by_signature pool.hash (generate_signature object_name program_name) with
  | some program => some program
  | none => hash_find_item_by_signature pool.hash (generate_signature "Object" program_name)

/-- `surgescript_programpool_exists`: `get` hit, fallback included. -/
def surgescript_programpool_exists {m : Type} (pool : ProgramPool m)
    (object_name program_name : String) : Bool :=
  (surgescript_programpool_get pool object_name program_name).isSome

/-- `surgescript_programpool_replace`: overwrite the found pair's
program in place (metadata untouched), or defer to `put` when the exact
pair is absent. -/
def surgescript_programpool_replace {m : Type} (pool : ProgramPool m)
    (object_name program_name : String) (program : m) : Option (ProgramPool m) :=
  let signature := generate_signature object_name program_name
  match hash_find_item_by_signature pool.hash signature with
  | some _ => some { pool with hash := hash_set_by_signature pool.hash signature program }
  | none => surgescript_programpool_put pool object_name program_name program

/-- `surgescript_programpool_delete`: remove the exact hash entry if
present, then remove the metadata name. -/
def surgescript_programpool_delete {m : Type} (pool : ProgramPool m)
    (object_name program_name : String) : ProgramPool m :=
  remove_metadata
    { pool with
      hash := hash_del_by_signature pool.hash (generate_signature object_name program_name) }
    object_name program_name

/-- `delete_program` (the `purge` callback): remove the hash entry of
one `(object_name, program_name)` signature. -/
def delete_program {m : Type} (hash : List (Nat × m)) (object_name program_name : String) :
    List (Nat × m) :=
  hash_del_by_signature hash (generate_signature object_name program_name)

/-- `surgescript_programpool_purge`: run `delete_program` over the
object's metadata name list via `foreach_ex`, then drop the object's
metadata entry. -/
def surgescript_programpool_purge {m : Type} (pool : ProgramPool m) (object_name : String) :
    ProgramPool m :=
  let names := traverse_metadata pool object_name
  remove_object_metadata
    { pool with hash := names.foldl (fun h p => delete_program h object_name p) pool.hash }
    object_name

/-- `surgescript_programpool_is_compiled`: the object has a metadata
entry with a nonempty program-name array. -/
def surgescript_programpool_is_compiled {m : Type} (pool : ProgramPool m)
    (object_name : String) : Bool :=
  match meta_find pool.meta object_name with
  | some names => decide (0 < names.length)
  | none => false

/-- Well-formedness every pool reachable through the API enjoys: the
signature keys of the registry are pairwise distinct (`put` is guarded
by `shallowcheck`) and so are the object names of the metadata table
(`insert_metadata` reuses an existing entry). -/
def PoolWF {m : Type} (pool : ProgramPool m) : Prop :=
  (pool.hash.map Prod.fst).Nodup ∧ (pool.meta.map Prod.fst).Nodup

/-- Concrete pool used to instantiate universally quantified theorems:
one program (the handle `7`) registered under `("Array", "f")`. -/
def examplePool : ProgramPool Nat :=
  { hash := [(generate_signature "Array" "f", 7)], meta := [("Array", ["f"])] }

/-- `examplePool` after `put "Array" "g" 5`. -/
def examplePoolG : ProgramPool Nat :=
  { hash := [(generate_signature "Array" "f", 7), (generate_signature "Array" "g", 5)],
    meta := [("Array", ["f", "g"])] }

/-! ## The VM driver (`runtime/vm.c`)

`struct surgescript_vm_t` bundles a stack, a program pool and an object
manager.  The object manager is an external collaborator: the driver
only consults its root handle, handle liveness, and the tree traversal
that updates every live object.  Stack and pool do not participate in
`update`/`is_active` and stay opaque type parameters. -/

/-- Modelled from the spec: the object-manager interface the VM consumes
(spec section 6) — `root_handle`, `exists(handle)`, and
`traverse(root, visit_fn)`; the traversal yields the successor manager
state together with the list of objects visited (spec: every live
object exactly once; the order is manager-defined). -/
structure ObjectManagerOps (w obj : Type) where
  root : w → Nat
  handle_alive : w → Nat → Bool
  traverse_from_root : w → w × List obj

/-- `struct surgescript_vm_t`: stack, program pool, object manager
(state plus its interface). -/
structure VM (stk pl w obj : Type) where
  stack : stk
  program_pool : pl
  manager_ops : ObjectManagerOps w obj
  object_manager : w

/-- `surgescript_vm_is_active`: the root handle still resolves in the
object manager. -/
def surgescript_vm_is_active {stk pl w obj : Type} (vm : VM stk pl w obj) : Bool :=
  vm.manager_ops.handle_alive vm.object_manager (vm.manager_ops.root vm.object_manager)

/-- `surgescript_vm_update`: if active, traverse the tree from the root
updating every object, then return the post-traversal activity; if not
active, return `false` at once, visiting nothing and leaving the state
untouched.  Result: (returned Bool, successor VM, objects visited). -/
def surgescript_vm_update {stk pl w obj : Type} (vm : VM stk pl w obj) :
    Bool × VM stk pl w obj × List obj :=
  if surgescript_vm_is_active vm then
    let r := vm.manager_ops.traverse_from_root vm.object_manager
    let vm2 := { vm with object_manager := r.1 }
    (surgescript_vm_is_active vm2, vm2, r.2)
  else
    (false, vm, [])

/-- The VM state left behind by one `update` call. -/
def vm_update_state {stk pl w obj : Type} (vm : VM stk pl w obj) : VM stk pl w obj :=
  (surgescript_vm_update vm).2.1

/-- Concrete object manager over state `Bool` (= "does the root still
exist"): traversal keeps the state and visits one object. -/
def exampleOM : ObjectManagerOps Bool Unit :=
  { root := fun _ => 0, handle_alive := fun s _ => s, traverse_from_root := fun s => (s, [()]) }

/-- A VM whose root object is gone. -/
def exampleVM : VM Unit Unit Bool Unit :=
  { stack := (), program_pool := (), manager_ops := exampleOM, object_manager := false }

/-! ## The runtime environment (`runtime/renv.h`)

`struct surgescript_renv_t` is five shared references plus the address
of a private temporaries array.  References are modelled as numeric
handles; the temporaries arrays live in an explicit store indexed by
(array address, slot). -/

/-- Modelled from the spec: the store backing temporaries arrays.
`next` is the next fresh array address (allocation is monotonic);
`mem a j` is the value in slot `j` of the array at address `a`. -/
structure VarStore (v : Type) where
  next : Nat
  mem : Nat → Nat → v

/-- `struct surgescript_renv_t`: owner, stack, heap, program pool and
object pool references, plus the `tmp` temporaries-array address. -/
structure surgescript_renv_t where
  owner : Nat
  stack : Nat
  heap : Nat
  program_pool : Nat
  object_pool : Nat
  tmp : Nat

def surgescript_renv_owner (env : surgescript_renv_t) : Nat := env.owner

def surgescript_renv_stack (env : surgescript_renv_t) : Nat := env.stack

def surgescript_renv_heap (env : surgescript_renv_t) : Nat := env.heap

def surgescript_renv_programpool (env : surgescript_renv_t) : Nat := env.program_pool

def surgescript_renv_objectpool (env : surgescript_renv_t) : Nat := env.object_pool

def surgescript_renv_tmp (env : surgescript_renv_t) : Nat := env.tmp

/-- Modelled from the spec: `surgescript_renv_clone` is only declared in
`renv.h` (its body is not among the sources under review); per the spec
it yields "a new environment sharing all references except that
temporaries are freshly allocated (not copied)".  The fresh array gets
the next store address; the store's memory is untouched (uninitialized
scratch, and no shared state is written). -/
def surgescript_renv_clone {v : Type} (st : VarStore v) (env : surgescript_renv_t) :
    VarStore v × surgescript_renv_t :=
  ({ st with next := st.next + 1 }, { env with tmp := st.next })

/-- Write to slot `i` of an environment's temporaries array
(`renv->tmp[i] = val`). -/
def renv_tmp_write {v : Type} (st : VarStore v) (env : surgescript_renv_t) (i : Nat)
    (val : v) : VarStore v :=
  { st with mem := fun a j => if a = env.tmp ∧ j = i then val else st.mem a j }

/-- Read slot `i` of an environment's temporaries array
(`renv->tmp[i]`). -/
def renv_tmp_read {v : Type} (st : VarStore v) (env : surgescript_renv_t) (i : Nat) : v :=
  st.mem env.tmp i

/-- A live environment's temporaries array was allocated by the store:
its address is below the allocation counter. -/
def RenvWF {v : Type} (st : VarStore v) (env : surgescript_renv_t) : Prop :=
  env.tmp < st.next

def exampleStore : VarStore Nat := { next := 1, mem := fun _ _ => 0 }

def exampleRenv : surgescript_renv_t :=
  { owner := 1, stack := 2, heap := 3, program_pool := 4, object_pool := 5, tmp := 0 }

/-! ## The Array built-in (`runtime/sslib/array.c`)

An Array object owns a heap whose cell `LENGTH_ADDR = 0` stores the
length and whose cells `BASE_ADDR + i` store the elements.  The heap and
the variable type are external collaborators. -/

/-- Modelled from the spec: the variable value type — the array code
needs numbers (`get_number`/`set_number`, used for lengths and indices,
modelled with `Int` since every use here is integral) and otherwise
opaque values, plus value `clone`/`copy`. -/
inductive SVar where
  | num : Int → SVar
  | other : Nat → SVar

def surgescript_var_get_number : SVar → Int
  | SVar.num n => n
  | SVar.other _ => 0

/-- `surgescript_var_clone`: a fresh variable holding the same value —
the identity in a value semantics. -/
def surgescript_var_clone (x : SVar) : SVar := x

/-- Modelled from the spec: the heap — monotonic cell allocation,
indexed access, single-cell free (spec section 6).  `len` is the number
of allocated cells; `mem` their contents.  Freeing the most recently
allocated cell (the only pattern the array code uses) returns it to the
allocator. -/
structure surgescript_heap_t where
  len : Nat
  mem : Nat → SVar

def surgescript_heap_at (h : surgescript_heap_t) (i : Nat) : SVar := h.mem i

/-- Writing through the reference `surgescript_heap_at` returns
(covers `surgescript_var_set_number` / `surgescript_var_copy` on a heap
cell). -/
def surgescript_heap_write (h : surgescript_heap_t) (i : Nat) (x : SVar) :
    surgescript_heap_t :=
  { h with mem := fun j => if j = i then x else h.mem j }

/-- `surgescript_heap_malloc`: allocates the next cell, returning its
index. -/
def surgescript_heap_malloc (h : surgescript_heap_t) : Nat × surgescript_heap_t :=
  (h.len, { h with len := h.len + 1 })

/-- `surgescript_heap_free` of the last allocated cell shrinks the
allocation; the array code frees no other cells. -/
def surgescript_heap_free (h : surgescript_heap_t) (i : Nat) : surgescript_heap_t :=
  { h with len := if i + 1 = h.len then h.len - 1 else h.len }

def LENGTH_ADDR : Nat := 0

def BASE_ADDR : Nat := 1

/-- The `ARRAY_LENGTH(heap)` macro: the number stored at
`LENGTH_ADDR`, as an integer. -/
def ARRAY_LENGTH (h : surgescript_heap_t) : Int :=
  surgescript_var_get_number (surgescript_heap_at h LENGTH_ADDR)

/-- `fun_pop`: when the length is positive, clone the last element, set
the stored length to `length - 1`, free the last element's cell and
return the clone; otherwise return nothing (`NULL`). -/
def fun_pop (h : surgescript_heap_t) : Option SVar × surgescript_heap_t :=
  let length := ARRAY_LENGTH h
  if 0 < length then
    let value := surgescript_var_clone
      (surgescript_heap_at h ((BASE_ADDR : Int) + (length - 1)).toNat)
    let h1 := surgescript_heap_write h LENGTH_ADDR (SVar.num (length - 1))
    let h2 := surgescript_heap_free h1 ((BASE_ADDR : Int) + (length - 1)).toNat
    (some value, h2)
  else
    (none, h)

/-- The `while(index >= length)` loop of `fun_set`: allocate a cell,
store the incremented length, and check the `ssassert` that the fresh
cell is `BASE_ADDR + (length - 1)` (assert failure, like `ssfatal`, is
process-terminating: `none`).  Returns the final local `length` and
heap. -/
def array_grow_loop (index length : Int) (h : surgescript_heap_t) :
    Option (Int × surgescript_heap_t) :=
  if hge : length ≤ index then
    if (surgescript_heap_malloc h).1 = ((BASE_ADDR : Int) + (length + 1 - 1)).toNat then
      array_grow_loop index (length + 1)
        (surgescript_heap_write (surgescript_heap_malloc h).2 LENGTH_ADDR
          (SVar.num (length + 1)))
    else
      none
  else
    some (length, h)
termination_by (index + 1 - length).toNat
decreasing_by
  omega

/-- `fun_set`: reject (fatally) an index below `0` or at least
`length + 1024`; grow the array while the index is beyond the length;
copy the value into `BASE_ADDR + index`; return a clone of the value. -/
def fun_set (h : surgescript_heap_t) (index : Int) (value : SVar) :
    Option (SVar × surgescript_heap_t) :=
  if index < 0 ∨ ARRAY_LENGTH h + 1024 ≤ index then
    none
  else
    match array_grow_loop index (ARRAY_LENGTH h) h with
    | none => none
    | some r =>
      some (surgescript_var_clone value,
        surgescript_heap_write r.2 ((BASE_ADDR : Int) + index).toNat value)

/-- An Array object's heap with length `L`: cell `0` stores the number
`L` and exactly the cells `0, 1, ..., L` are allocated (the array code
never frees interior cells, so its cells stay contiguous). -/
def ArrayWF (h : surgescript_heap_t) (L : Nat) : Prop :=
  h.mem LENGTH_ADDR = SVar.num (L : Int) ∧ h.len = L + 1

/-- A length-1 array holding the value `other 7`. -/
def exampleHeap : surgescript_heap_t :=
  { len := 2, mem := fun j => if j = 0 then SVar.num 1 else SVar.other 7 }

/-! ## Association-list lemmas for the two uthash tables -/

theorem hash_find_eq_none_iff {m : Type} (h : List (Nat × m)) (s : Nat) :
    hash_find_item_by_signature h s = none ↔ s ∉ h.map Prod.fst := by
  induction h with
  | nil => simp [hash_find_item_by_signature]
  | cons kv t ih =>
    obtain ⟨k, v⟩ := kv
    by_cases hk : k = s
    · subst hk
      simp [hash_find_item_by_signature]
    · simp [hash_find_item_by_signature, hk, ih, Ne.symm hk]

theorem hash_find_append_right {m : Type} (h : List (Nat × m)) (s : Nat) (p : m)
    (hnone : hash_find_item_by_signature h s = none) :
    hash_find_item_by_signature (h ++ [(s, p)]) s = some p := by
  induction h with
  | nil => simp [hash_find_item_by_signature]
  | cons kv t ih =>
    obtain ⟨k, v⟩ := kv
    simp only [hash_find_item_by_signature] at hnone ⊢
    by_cases hk : k = s
    · simp [hk] at hnone
    · simp only [if_neg hk] at hnone ⊢
      exact ih hnone

theorem hash_find_append_ne {m : Type} (h : List (Nat × m)) (s t : Nat) (p : m)
    (hne : s ≠ t) :
    hash_find_item_by_signature (h ++ [(s, p)]) t = hash_find_item_by_signature h t := by
  induction h with
  | nil => simp [hash_find_item_by_signature, hne]
  | cons kv tl ih =>
    obtain ⟨k, v⟩ := kv
    simp only [List.cons_append, hash_find_item_by_signature]
    by_cases hk : k = t
    · simp [hk]
    · simp only [if_neg hk]
      exact ih

theorem hash_del_sublist {m : Type} (h : List (Nat × m)) (s : Nat) :
    (hash_del_by_signature h s).Sublist h := by
  induction h with
  | nil => simp [hash_del_by_signature]
  | cons kv t ih =>
    obtain ⟨k, v⟩ := kv
    simp only [hash_del_by_signature]
    by_cases hk : k = s
    · simp only [if_pos hk]
      exact List.sublist_cons_self (k, v) t
    · simp only [if_neg hk]
      exact ih.cons₂ (k, v)

theorem hash_find_none_of_sublist {m : Type} {h1 h2 : List (Nat × m)} {s : Nat}
    (hs : h1.Sublist h2) (hnone : hash_find_item_by_signature h2 s = none) :
    hash_find_item_by_signature h1 s = none := by
  rw [hash_find_eq_none_iff] at hnone ⊢
  intro hmem
  exact hnone ((hs.map Prod.fst).subset hmem)

theorem hash_find_del_self {m : Type} (h : List (Nat × m)) (s : Nat)
    (hnodup : (h.map Prod.fst).Nodup) :
    hash_find_item_by_signature (hash_del_by_signature h s) s = none := by
  induction h with
  | nil => simp [hash_del_by_signature, hash_find_item_by_signature]
  | cons kv t ih =>
    obtain ⟨k, v⟩ := kv
    simp only [List.map_cons, List.nodup_cons] at hnodup
    simp only [hash_del_by_signature]
    by_cases hk : k = s
    · subst hk
      simp only [if_pos rfl]
      rw [hash_find_eq_none_iff]
      exact hnodup.1
    · simp only [if_neg hk, hash_find_item_by_signature, if_neg hk]
      exact ih hnodup.2

theorem hash_find_del_ne {m : Type} (h : List (Nat × m)) (s t : Nat) (hne : t ≠ s) :
    hash_find_item_by_signature (hash_del_by_signature h s) t
      = hash_find_item_by_signature h t := by
  induction h with
  | nil => simp [hash_del_by_signature]
  | cons kv tl ih =>
    obtain ⟨k, v⟩ := kv
    by_cases hk : k = s
    · subst hk
      simp [hash_del_by_signature, hash_find_item_by_signature, Ne.symm hne]
    · by_cases hkt : k = t
      · simp [hash_del_by_signature, hash_find_item_by_signature, hk, hkt, hne]
      · simp [hash_del_by_signature, hash_find_item_by_signature, hk, hkt, ih]

theorem hash_find_set_self {m : Type} (h : List (Nat × m)) (s : Nat) (p : m)
    (hsome : (hash_find_item_by_signature h s).isSome) :
    hash_find_item_by_signature (hash_set_by_signature h s p) s = some p := by
  induction h with
  | nil => simp [hash_find_item_by_signature] at hsome
  | cons kv t ih =>
    obtain ⟨k, v⟩ := kv
    simp only [hash_find_item_by_signature] at hsome
    simp only [hash_set_by_signature]
    by_cases hk : k = s
    · simp [hk, hash_find_item_by_signature]
    · simp only [if_neg hk, hash_find_item_by_signature, if_neg hk] at hsome ⊢
      exact ih hsome

theorem meta_find_eq_none_iff (l : List (String × List String)) (o : String) :
    meta_find l o = none ↔ o ∉ l.map Prod.fst := by
  induction l with
  | nil => simp [meta_find]
  | cons kv t ih =>
    obtain ⟨k, v⟩ := kv
    by_cases hk : k = o
    · subst hk
      simp [meta_find]
    · simp [meta_find, hk, ih, Ne.symm hk]

theorem meta_find_append_right (l : List (String × List String)) (o : String)
    (names : List String) (hnone : meta_find l o = none) :
    meta_find (l ++ [(o, names)]) o = some names := by
  induction l with
  | nil => simp [meta_find]
  | cons kv t ih =>
    obtain ⟨k, v⟩ := kv
    simp only [meta_find] at hnone ⊢
    by_cases hk : k = o
    · simp [hk] at hnone
    · simp only [if_neg hk] at hnone ⊢
      exact ih hnone

theorem meta_find_update_self (l : List (String × List String)) (o : String)
    (f : List String → List String) :
    meta_find (meta_update l o f) o = (meta_find l o).map f := by
  induction l with
  | nil => simp [meta_update, meta_find]
  | cons kv t ih =>
    obtain ⟨k, v⟩ := kv
    simp only [meta_update, meta_find]
    by_cases hk : k = o
    · simp [hk, meta_find]
    · simp only [if_neg hk, meta_find, if_neg hk]
      exact ih

theorem meta_find_del_self (l : List (String × List String)) (o : String)
    (hnodup : (l.map Prod.fst).Nodup) :
    meta_find (meta_del l o) o = none := by
  induction l with
  | nil => simp [meta_del, meta_find]
  | cons kv t ih =>
    obtain ⟨k, v⟩ := kv
    simp only [List.map_cons, List.nodup_cons] at hnodup
    simp only [meta_del]
    by_cases hk : k = o
    · subst hk
      simp only [if_pos rfl]
      rw [meta_find_eq_none_iff]
      exact hnodup.1
    · simp only [if_neg hk, meta_find, if_neg hk]
      exact ih hnodup.2

theorem insert_metadata_hash {m : Type} (pool : ProgramPool m) (o p : String) :
    (insert_metadata pool o p).hash = pool.hash := by
  unfold insert_metadata
  cases meta_find pool.meta o <;> rfl

theorem purge_foldl_sublist {m : Type} (names : List String) (c : String)
    (h : List (Nat × m)) :
    (names.foldl (fun hh p => delete_program hh c p) h).Sublist h := by
  induction names generalizing h with
  | nil => simp
  | cons x xs ih =>
    simp only [List.foldl_cons]
    exact (ih _).trans (hash_del_sublist h _)

theorem hash_find_foldl_delete_none {m : Type} (names : List String) (c n : String)
    (h : List (Nat × m)) (hnodup : (h.map Prod.fst).Nodup) (hn : n ∈ names) :
    hash_find_item_by_signature
      (names.foldl (fun hh p => delete_program hh c p) h) (generate_signature c n) = none := by
  induction names generalizing h with
  | nil => cases hn
  | cons x xs ih =>
    simp only [List.foldl_cons]
    rcases List.mem_cons.mp hn with hx | hxs
    · subst hx
      apply hash_find_none_of_sublist (purge_foldl_sublist xs c _)
      exact hash_find_del_self h _ hnodup
    · exact ih _ (((hash_del_sublist h _).map Prod.fst).nodup hnodup) hxs

/-! ## The claims about the program pool -/

/-- Claim C1: for every pool, class name `c` and program name `n`,
`get (c, n)` resolves with single-level fallback — it returns the
program registered under the exact signature of `(c, n)` when one
exists, otherwise the one registered under `("Object", n)`, otherwise
nothing; and the spec scenario: after `put "Object" "toString" A` and
`put "Array" "toString" B`, `get "Array" "toString"` is `B`, and after
`delete "Array" "toString"` it is `A`. -/
theorem claim_C1 {m : Type} :
    (∀ (pool : ProgramPool m) (c n : String),
      (∀ p : m,
        hash_find_item_by_signature pool.hash (generate_signature c n) = some p →
        surgescript_programpool_get pool c n = some p) ∧
      (hash_find_item_by_signature pool.hash (generate_signature c n) = none →
        surgescript_programpool_get pool c n
          = hash_find_item_by_signature pool.hash (generate_signature "Object" n))) ∧
    (∀ A B : m, ∃ q1 q2 : ProgramPool m,
      surgescript_programpool_put (surgescript_programpool_create m) "Object" "toString" A
        = some q1 ∧
      surgescript_programpool_put q1 "Array" "toString" B = some q2 ∧
      surgescript_programpool_get q2 "Array" "toString" = some B ∧
      surgescript_programpool_get (surgescript_programpool_delete q2 "Array" "toString")
        "Array" "toString" = some A) := by
  constructor
  · intro pool c n
    constructor
    · intro p hp
      unfold surgescript_programpool_get
      rw [hp]
    · intro hnone
      unfold surgescript_programpool_get
      rw [hnone]
  · intro A B
    refine ⟨{ hash := [(generate_signature "Object" "toString", A)],
              meta := [("Object", ["toString"])] },
            { hash := [(generate_signature "Object" "toString", A),
                       (generate_signature "Array" "toString", B)],
              meta := [("Object", ["toString"]), ("Array", ["toString"])] },
            ?_, ?_, ?_, ?_⟩ <;> rfl

/-- Instance of claim C1 at a concrete pool: the program `7` registered
under `("Array", "f")` is what `get` returns. -/
theorem claim_C1_witness :
    surgescript_programpool_get examplePool "Array" "f" = some 7 :=
  (claim_C1.1 examplePool "Array" "f").1 7 (by decide)

/-- Claim C2: after `put c n p` succeeds, `get c n` returns `p` and
`exists c n` is true. -/
theorem claim_C2 {m : Type} (pool : ProgramPool m) (c n : String) (p : m)
    (q : ProgramPool m) (hput : surgescript_programpool_put pool c n p = some q) :
    surgescript_programpool_get q c n = some p ∧
    surgescript_programpool_exists q c n = true := by
  unfold surgescript_programpool_put at hput
  by_cases hsc : surgescript_programpool_shallowcheck pool c n = true
  · rw [if_neg (by simp [hsc])] at hput
    cases hput
  · rw [if_pos hsc] at hput
    have hq : q = insert_metadata
        { pool with hash := pool.hash ++ [(generate_signature c n, p)] } c n :=
      (Option.some.injEq _ _ ▸ hput).symm
    have hfind : hash_find_item_by_signature pool.hash (generate_signature c n) = none := by
      unfold surgescript_programpool_shallowcheck at hsc
      exact Option.not_isSome_iff_eq_none.mp (by simpa using hsc)
    have hqhash : q.hash = pool.hash ++ [(generate_signature c n, p)] := by
      rw [hq, insert_metadata_hash]
    have hget : surgescript_programpool_get q c n = some p := by
      unfold surgescript_programpool_get
      rw [hqhash, hash_find_append_right _ _ _ hfind]
    refine ⟨hget, ?_⟩
    unfold surgescript_programpool_exists
    rw [hget]
    rfl

/-- Instance of claim C2: registering the program `5` under
`("Array", "g")` in `examplePool` makes `get` return it. -/
theorem claim_C2_witness :
    surgescript_programpool_get examplePoolG "Array" "g" = some 5 ∧
    surgescript_programpool_exists examplePoolG "Array" "g" = true :=
  claim_C2 examplePool "Array" "g" 5 examplePoolG rfl

/-- Claim C3: when `(c, n)` is already registered exactly, a second
`put` is the fatal "duplicate function" error (no surviving pool),
while `replace` always succeeds and afterwards `get c n` returns the
new program. -/
theorem claim_C3 {m : Type} (pool : ProgramPool m) (c n : String) (p2 : m)
    (hsc : surgescript_programpool_shallowcheck pool c n = true) :
    surgescript_programpool_put pool c n p2 = none ∧
    ∃ q : ProgramPool m,
      surgescript_programpool_replace pool c n p2 = some q ∧
      surgescript_programpool_get q c n = some p2 := by
  have hsome : (hash_find_item_by_signature pool.hash (generate_signature c n)).isSome := by
    unfold surgescript_programpool_shallowcheck at hsc
    simpa using hsc
  constructor
  · unfold surgescript_programpool_put
    rw [if_neg (by simp [hsc])]
  · obtain ⟨v, hv⟩ := Option.isSome_iff_exists.mp hsome
    refine ⟨{ pool with
        hash := hash_set_by_signature pool.hash (generate_signature c n) p2 }, ?_, ?_⟩
    · unfold surgescript_programpool_replace
      simp only [hv]
    · unfold surgescript_programpool_get
      rw [hash_find_set_self _ _ _ hsome]

/-- Instance of claim C3 at `examplePool`, which has `("Array", "f")`
registered: a second `put` there is fatal, `replace` succeeds. -/
theorem claim_C3_witness :
    surgescript_programpool_put examplePool "Array" "f" 9 = none ∧
    ∃ q : ProgramPool Nat,
      surgescript_programpool_replace examplePool "Array" "f" 9 = some q ∧
      surgescript_programpool_get q "Array" "f" = some 9 :=
  claim_C3 examplePool "Array" "f" 9 (by decide)

/-- Claim C4: after `purge c`, `is_compiled c` is false, and every name
`n` previously registered under `c` resolves to nothing under the exact
signature — `get c n` yields only what fallback finds under
`("Object", n)`. -/
theorem claim_C4 {m : Type} (pool : ProgramPool m) (hwf : PoolWF pool) (c : String) :
    surgescript_programpool_is_compiled (surgescript_programpool_purge pool c) c = false ∧
    ∀ n ∈ traverse_metadata pool c,
      surgescript_programpool_shallowcheck (surgescript_programpool_purge pool c) c n
        = false ∧
      surgescript_programpool_get (surgescript_programpool_purge pool c) c n
        = hash_find_item_by_signature (surgescript_programpool_purge pool c).hash
            (generate_signature "Object" n) := by
  have hmeta : (surgescript_programpool_purge pool c).meta = meta_del pool.meta c := rfl
  have hhash : (surgescript_programpool_purge pool c).hash
      = (traverse_metadata pool c).foldl (fun hh p => delete_program hh c p) pool.hash := rfl
  constructor
  · unfold surgescript_programpool_is_compiled
    rw [hmeta, meta_find_del_self _ _ hwf.2]
  · intro n hn
    have hnone : hash_find_item_by_signature (surgescript_programpool_purge pool c).hash
        (generate_signature c n) = none := by
      rw [hhash]
      exact hash_find_foldl_delete_none _ c n _ hwf.1 hn
    constructor
    · unfold surgescript_programpool_shallowcheck
      rw [hnone]
      rfl
    · unfold surgescript_programpool_get
      rw [hnone]

/-- Instance of claim C4: purging `"Array"` from `examplePool` empties
it of code and of the name `"f"` it had registered. -/
theorem claim_C4_witness :
    surgescript_programpool_is_compiled
      (surgescript_programpool_purge examplePool "Array") "Array" = false ∧
    surgescript_programpool_shallowcheck
      (surgescript_programpool_purge examplePool "Array") "Array" "f" = false :=
  ⟨(claim_C4 examplePool (by constructor <;> decide) "Array").1,
   ((claim_C4 examplePool (by constructor <;> decide) "Array").2 "f" (by decide)).1⟩

/-- Claim C5: `foreach c` visits program names in first-insertion
order — `put` appends the new name to the end of `c`'s visit sequence,
and a `replace` of an already-registered name leaves every visit
sequence unchanged. -/
theorem claim_C5 {m : Type} :
    (∀ (pool : ProgramPool m) (c n : String) (p : m) (q : ProgramPool m),
      surgescript_programpool_put pool c n p = some q →
      traverse_metadata q c = traverse_metadata pool c ++ [n]) ∧
    (∀ (pool : ProgramPool m) (c n : String) (p : m) (q : ProgramPool m),
      surgescript_programpool_shallowcheck pool c n = true →
      surgescript_programpool_replace pool c n p = some q →
      ∀ c2, traverse_metadata q c2 = traverse_metadata pool c2) := by
  constructor
  · intro pool c n p q hput
    unfold surgescript_programpool_put at hput
    by_cases hsc : surgescript_programpool_shallowcheck pool c n = true
    · rw [if_neg (by simp [hsc])] at hput
      cases hput
    · rw [if_pos hsc] at hput
      have hq : q = insert_metadata
          { pool with hash := pool.hash ++ [(generate_signature c n, p)] } c n :=
        (Option.some.injEq _ _ ▸ hput).symm
      subst hq
      unfold insert_metadata traverse_metadata
      cases hm : meta_find pool.meta c with
      | none =>
        simp only [hm]
        rw [meta_find_append_right _ _ _ hm]
        rfl
      | some l =>
        simp only [hm]
        rw [meta_find_update_self, hm]
        rfl
  · intro pool c n p q hsc hrep c2
    have hsome : (hash_find_item_by_signature pool.hash
        (generate_signature c n)).isSome := by
      unfold surgescript_programpool_shallowcheck at hsc
      simpa using hsc
    obtain ⟨v, hv⟩ := Option.isSome_iff_exists.mp hsome
    unfold surgescript_programpool_replace at hrep
    simp only [hv] at hrep
    injection hrep with hq
    subst hq
    rfl

/-- Instance of claim C5: putting `("Array", "g")` into `examplePool`
appends `"g"` after the previously inserted `"f"` in the visit order. -/
theorem claim_C5_witness :
    traverse_metadata examplePoolG "Array" = traverse_metadata examplePool "Array" ++ ["g"] :=
  claim_C5.1 examplePool "Array" "g" 5 examplePoolG rfl

/-- Claim C6: signature generation is deterministic — equal
`(class, name)` pairs yield equal signatures — and order-sensitive: for
distinct strings `a` and `b`, the signature of `(a, b)` differs from
that of `(b, a)`. -/
theorem claim_C6 :
    (∀ c n c2 n2 : String, c = c2 → n = n2 →
      generate_signature c n = generate_signature c2 n2) ∧
    (∀ a b : String, a ≠ b → generate_signature a b ≠ generate_signature b a) := by
  constructor
  · intro c n c2 n2 hc hn
    rw [hc, hn]
  · intro a b hne heq
    exact hne (generate_signature_inj heq).1

/-- Instance of claim C6: swapping `"Object"` and `"toString"` changes
the signature. -/
theorem claim_C6_witness :
    generate_signature "Object" "toString" ≠ generate_signature "toString" "Object" :=
  claim_C6.2 "Object" "toString" (by decide)

/-! ## The claim about the VM driver -/

/-- Claim C7: when the root object no longer exists in the object
manager (`is_active` is false), `update` returns false immediately,
visiting no object and leaving the VM untouched; and every subsequent
`update` call (any number of iterations later) likewise returns false
and visits no object. -/
theorem claim_C7 {stk pl w obj : Type} (vm : VM stk pl w obj)
    (hin : surgescript_vm_is_active vm = false) :
    surgescript_vm_update vm = (false, vm, []) ∧
    ∀ k : Nat, surgescript_vm_update (vm_update_state^[k] vm)
      = (false, vm_update_state^[k] vm, []) := by
  have hupd : surgescript_vm_update vm = (false, vm, []) := by
    unfold surgescript_vm_update
    rw [if_neg (by simp [hin])]
  have hfix : ∀ k : Nat, vm_update_state^[k] vm = vm := by
    intro k
    induction k with
    | zero => rfl
    | succ k ih =>
      rw [Function.iterate_succ_apply', ih]
      unfold vm_update_state
      rw [hupd]
  exact ⟨hupd, fun k => by rw [hfix k, hupd]⟩

/-- Instance of claim C7: a VM whose root is gone still returns false
from `update` after two further ticks. -/
theorem claim_C7_witness :
    surgescript_vm_update (vm_update_state^[2] exampleVM)
      = (false, vm_update_state^[2] exampleVM, []) :=
  (claim_C7 exampleVM rfl).2 2

/-! ## The claim about the runtime environment -/

/-- Claim C8: `clone` yields an environment with the same owner, stack,
heap, program-pool and object-pool references, does not modify any
existing storage, and gives the clone fresh temporaries: a write to a
temporary slot of the clone is invisible through the original
environment's temporaries. -/
theorem claim_C8 {v : Type} (st : VarStore v) (env : surgescript_renv_t)
    (hwf : RenvWF st env) :
    surgescript_renv_owner (surgescript_renv_clone st env).2
      = surgescript_renv_owner env ∧
    surgescript_renv_stack (surgescript_renv_clone st env).2
      = surgescript_renv_stack env ∧
    surgescript_renv_heap (surgescript_renv_clone st env).2
      = surgescript_renv_heap env ∧
    surgescript_renv_programpool (surgescript_renv_clone st env).2
      = surgescript_renv_programpool env ∧
    surgescript_renv_objectpool (surgescript_renv_clone st env).2
      = surgescript_renv_objectpool env ∧
    (surgescript_renv_clone st env).1.mem = st.mem ∧
    ∀ (i : Nat) (val : v) (j : Nat),
      renv_tmp_read
        (renv_tmp_write (surgescript_renv_clone st env).1
          (surgescript_renv_clone st env).2 i val)
        env j
      = renv_tmp_read st env j := by
  refine ⟨rfl, rfl, rfl, rfl, rfl, rfl, fun i val j => ?_⟩
  unfold renv_tmp_read renv_tmp_write surgescript_renv_clone
  simp only
  rw [if_neg]
  rintro ⟨h1, _⟩
  have hlt : env.tmp < st.next := hwf
  omega

/-- Instance of claim C8: writing `42` into the clone's temporaries
leaves the original environment's slot reading its old value `0`. -/
theorem claim_C8_witness :
    renv_tmp_read
      (renv_tmp_write (surgescript_renv_clone exampleStore exampleRenv).1
        (surgescript_renv_clone exampleStore exampleRenv).2 0 42)
      exampleRenv 0 = 0 :=
  (claim_C8 exampleStore exampleRenv Nat.zero_lt_one).2.2.2.2.2.2 0 42 0

/-! ## The claims about the Array built-in -/

theorem ARRAY_LENGTH_of_wf {h : surgescript_heap_t} {L : Nat} (hwf : ArrayWF h L) :
    ARRAY_LENGTH h = (L : Int) := by
  unfold ARRAY_LENGTH surgescript_heap_at
  rw [hwf.1]
  rfl

theorem array_grow_loop_no_grow (index length : Int) (h : surgescript_heap_t)
    (hlt : index < length) :
    array_grow_loop index length h = some (length, h) := by
  unfold array_grow_loop
  rw [dif_neg (by omega)]

theorem array_grow_loop_spec (k : Nat) :
    ∀ (index length : Int) (h : surgescript_heap_t),
    0 ≤ length → length ≤ index → (index - length).toNat = k →
    h.len = length.toNat + 1 →
    ∃ h2, array_grow_loop index length h = some (index + 1, h2) ∧
      h2.len = (index + 1).toNat + 1 ∧
      h2.mem LENGTH_ADDR = SVar.num (index + 1) ∧
      ∀ j, j ≠ LENGTH_ADDR → h2.mem j = h.mem j := by
  induction k with
  | zero =>
    intro index length h h0 hle hk hlen
    have heq : index = length := by omega
    subst heq
    unfold array_grow_loop
    rw [dif_pos (le_refl index)]
    rw [if_pos (show (surgescript_heap_malloc h).1
        = ((BASE_ADDR : Int) + (index + 1 - 1)).toNat by
      unfold surgescript_heap_malloc
      simp only
      rw [hlen]
      unfold BASE_ADDR
      omega)]
    rw [array_grow_loop_no_grow index (index + 1) _ (by omega)]
    refine ⟨_, rfl, ?_, ?_, ?_⟩
    · unfold surgescript_heap_write surgescript_heap_malloc
      simp only
      omega
    · unfold surgescript_heap_write LENGTH_ADDR
      simp
    · intro j hj
      show (if j = LENGTH_ADDR then SVar.num (index + 1) else h.mem j) = h.mem j
      rw [if_neg hj]
  | succ k ih =>
    intro index length h h0 hle hk hlen
    unfold array_grow_loop
    rw [dif_pos hle]
    rw [if_pos (show (surgescript_heap_malloc h).1
        = ((BASE_ADDR : Int) + (length + 1 - 1)).toNat by
      unfold surgescript_heap_malloc
      simp only
      rw [hlen]
      unfold BASE_ADDR
      omega)]
    obtain ⟨h2, hrec, hlen2, hmem0, hmemj⟩ :=
      ih index (length + 1)
        (surgescript_heap_write (surgescript_heap_malloc h).2 LENGTH_ADDR
          (SVar.num (length + 1)))
        (by omega) (by omega) (by omega)
        (by
          unfold surgescript_heap_write surgescript_heap_malloc
          simp only
          omega)
    refine ⟨h2, hrec, hlen2, hmem0, fun j hj => ?_⟩
    rw [hmemj j hj]
    show (if j = LENGTH_ADDR then SVar.num (length + 1) else h.mem j) = h.mem j
    rw [if_neg hj]

/-- Claim C9: on an array of length `L`, if `L > 0` then `pop` returns
a clone of the element at the last index `L - 1`, frees that heap cell
(the allocation shrinks from `L + 1` cells back to `L`) and stores
`L - 1` as the length; if `L = 0`, `pop` returns nothing and leaves
the heap exactly as it was. -/
theorem claim_C9 (h : surgescript_heap_t) (L : Nat) (hwf : ArrayWF h L) :
    (0 < L →
      (fun_pop h).1 = some (surgescript_heap_at h (BASE_ADDR + (L - 1))) ∧
      ARRAY_LENGTH (fun_pop h).2 = (L : Int) - 1 ∧
      (fun_pop h).2.len = L) ∧
    (L = 0 → fun_pop h = (none, h)) := by
  have hlen := ARRAY_LENGTH_of_wf hwf
  constructor
  · intro hL
    have hcond : (0 : Int) < ARRAY_LENGTH h := by
      rw [hlen]
      exact_mod_cast hL
    have hidx : ((BASE_ADDR : Int) + (ARRAY_LENGTH h - 1)).toNat = BASE_ADDR + (L - 1) := by
      rw [hlen]
      unfold BASE_ADDR
      omega
    unfold fun_pop
    rw [if_pos hcond, hidx]
    refine ⟨rfl, ?_, ?_⟩
    · show ARRAY_LENGTH h - 1 = (L : Int) - 1
      rw [hlen]
    · unfold surgescript_heap_free surgescript_heap_write
      simp only
      rw [if_pos (show BASE_ADDR + (L - 1) + 1 = h.len by
        rw [hwf.2]
        unfold BASE_ADDR
        omega)]
      rw [hwf.2]
      omega
  · intro hL
    subst hL
    unfold fun_pop
    rw [if_neg (by rw [hlen]; simp)]

/-- Instance of claim C9 on a length-1 array: `pop` hands back the
element stored at the last index. -/
theorem claim_C9_witness :
    (fun_pop exampleHeap).1
      = some (surgescript_heap_at exampleHeap (BASE_ADDR + (1 - 1))) :=
  ((claim_C9 exampleHeap 1 ⟨rfl, rfl⟩).1 Nat.one_pos).1

/-- Claim C10: `set index value` on an array of length `L` overwrites
in place for `0 ≤ index < L` (length preserved, other elements
untouched), grows the array to length `index + 1` for
`L ≤ index < L + 1024` (previous elements untouched), and is the fatal
out-of-bounds error for `index < 0` or `index ≥ L + 1024`; in the
non-fatal cases it returns a clone of the value. -/
theorem claim_C10 (h : surgescript_heap_t) (L : Nat) (index : Int) (value : SVar)
    (hwf : ArrayWF h L) :
    ((0 ≤ index ∧ index < (L : Int)) →
      ∃ h2, fun_set h index value = some (value, h2) ∧
        surgescript_heap_at h2 (BASE_ADDR + index.toNat) = value ∧
        ARRAY_LENGTH h2 = (L : Int) ∧
        ∀ j : Nat, j < L → j ≠ index.toNat →
          surgescript_heap_at h2 (BASE_ADDR + j) = surgescript_heap_at h (BASE_ADDR + j)) ∧
    (((L : Int) ≤ index ∧ index < (L : Int) + 1024) →
      ∃ h2, fun_set h index value = some (value, h2) ∧
        ARRAY_LENGTH h2 = index + 1 ∧
        surgescript_heap_at h2 (BASE_ADDR + index.toNat) = value ∧
        ∀ j : Nat, j < L →
          surgescript_heap_at h2 (BASE_ADDR + j) = surgescript_heap_at h (BASE_ADDR + j)) ∧
    ((index < 0 ∨ (L : Int) + 1024 ≤ index) → fun_set h index value = none) := by
  have hlen := ARRAY_LENGTH_of_wf hwf
  have hcast : ((BASE_ADDR : Int) + index).toNat = BASE_ADDR + index.toNat ∨ index < 0 := by
    unfold BASE_ADDR
    omega
  refine ⟨?_, ?_, ?_⟩
  · rintro ⟨h0, hLt⟩
    have hidx : ((BASE_ADDR : Int) + index).toNat = BASE_ADDR + index.toNat := by
      unfold BASE_ADDR
      omega
    unfold fun_set
    rw [if_neg (by rw [hlen]; omega)]
    rw [array_grow_loop_no_grow index (ARRAY_LENGTH h) h (by omega)]
    refine ⟨_, rfl, ?_, ?_, ?_⟩
    · unfold surgescript_heap_at surgescript_heap_write
      simp only
      rw [hidx, if_pos rfl]
    · unfold ARRAY_LENGTH surgescript_heap_at surgescript_heap_write
      simp only
      rw [if_neg (show ¬ LENGTH_ADDR = ((BASE_ADDR : Int) + index).toNat by
        unfold LENGTH_ADDR BASE_ADDR
        omega)]
      exact hlen
    · intro j hjL hji
      unfold surgescript_heap_at surgescript_heap_write
      simp only
      rw [if_neg (show ¬ BASE_ADDR + j = ((BASE_ADDR : Int) + index).toNat by
        unfold BASE_ADDR
        omega)]
  · rintro ⟨hge, hlt⟩
    have hidx : ((BASE_ADDR : Int) + index).toNat = BASE_ADDR + index.toNat := by
      unfold BASE_ADDR
      omega
    obtain ⟨hg, hgrow, hglen, hgmem0, hgmemj⟩ :=
      array_grow_loop_spec (index - ARRAY_LENGTH h).toNat index (ARRAY_LENGTH h) h
        (by omega) (by omega) rfl
        (by rw [hlen, hwf.2]; omega)
    unfold fun_set
    rw [if_neg (by rw [hlen]; omega)]
    rw [hgrow]
    refine ⟨_, rfl, ?_, ?_, ?_⟩
    · unfold ARRAY_LENGTH surgescript_heap_at surgescript_heap_write
      simp only
      rw [if_neg (show ¬ LENGTH_ADDR = ((BASE_ADDR : Int) + index).toNat by
        unfold LENGTH_ADDR BASE_ADDR
        omega)]
      rw [hgmem0]
      rfl
    · unfold surgescript_heap_at surgescript_heap_write
      simp only
      rw [hidx, if_pos rfl]
    · intro j hjL
      unfold surgescript_heap_at surgescript_heap_write
      simp only
      rw [if_neg (show ¬ BASE_ADDR + j = ((BASE_ADDR : Int) + index).toNat by
        unfold BASE_ADDR
        omega)]
      exact hgmemj (BASE_ADDR + j) (by unfold BASE_ADDR LENGTH_ADDR; omega)
  · intro hbad
    unfold fun_set
    rw [if_pos (by rw [hlen]; omega)]

/-- Instance of claim C10 on a length-1 array: `set 0` overwrites the
single element in place. -/
theorem claim_C10_witness :
    ∃ h2, fun_set exampleHeap 0 (SVar.num 5) = some (SVar.num 5, h2) ∧
      surgescript_heap_at h2 (BASE_ADDR + (0 : Int).toNat) = SVar.num 5 ∧
      ARRAY_LENGTH h2 = ((1 : Nat) : Int) ∧
      ∀ j : Nat, j < 1 → j ≠ (0 : Int).toNat →
        surgescript_heap_at h2 (BASE_ADDR + j) = surgescript_heap_at exampleHeap (BASE_ADDR + j) :=
  (claim_C10 exampleHeap 1 0 (SVar.num 5) ⟨rfl, rfl⟩).1 ⟨by decide, by decide⟩

end SurgeScript
